import Mathlib

/-!
Verification of a statically composed parser-combinator core
(`parser_combinators.hpp`).  The C++ source is shallowly embedded:

* a symbol is an `Int` (the C `int` character code), with `EOF = -1`;
* the character-predicate algebra becomes the inductive `Pred`, whose
  `eval` mirrors each `operator()` and whose `name` mirrors each stored
  name string, using the C-locale classification functions modelled on
  `Int`;
* the `pstream` cursor becomes a structure holding the not-yet-buffered
  tail of the input (`rest`), the byte count, row, column and the
  buffered symbol, with `pstream.next` transcribing the body of
  `pstream::next`;
* a parser of result type `σ` is a function from the cursor and the
  caller's result slot to `Except parse_error (Bool × pstream × σ)`:
  the `Bool` is the C++ return value, the thrown `parse_error` of
  `expect` becomes the `Except.error` branch, and the (possibly
  mutated) cursor and slot are returned explicitly;
* the variadic `fmap_sequence` / `fmap_choice` templates are embedded
  over a `List` of parsers sharing one temporary-slot type, with the
  tuple of default-constructed temporaries becoming
  `List.replicate n dflt`;
* the `while` loop of `combinator_many` is embedded with explicit
  fuel; `none` means the loop has not finished within the given fuel.
-/

namespace PC

/-- The C `EOF` value returned by `streambuf` at end of input. -/
def EOF : Int := -1

/-- C-locale `isspace`: space and the five control whitespace chars. -/
def isspace (c : Int) : Bool := c == 32 || (9 ≤ c && c ≤ 13)

/-- C-locale `isdigit`. -/
def isdigit (c : Int) : Bool := 48 ≤ c && c ≤ 57

/-- C-locale `isupper`. -/
def isupper (c : Int) : Bool := 65 ≤ c && c ≤ 90

/-- C-locale `islower`. -/
def islower (c : Int) : Bool := 97 ≤ c && c ≤ 122

/-- C-locale `isalpha`. -/
def isalpha (c : Int) : Bool := isupper c || islower c

/-- C-locale `isalnum`. -/
def isalnum (c : Int) : Bool := isalpha c || isdigit c

/-- C-locale `isprint`: the visible ASCII range including space. -/
def isprint (c : Int) : Bool := 32 ≤ c && c ≤ 126

/-- The character-predicate algebra of the source: the eight named class
predicates, `is_char`, and the two combining forms `is_either`
(`operator||`) and `is_not` (`operator~`). -/
inductive Pred : Type where
| is_any : Pred
| is_space : Pred
| is_digit : Pred
| is_upper : Pred
| is_lower : Pred
| is_alpha : Pred
| is_alnum : Pred
| is_print : Pred
| is_char : Int → Pred
| is_either : Pred → Pred → Pred
| is_not : Pred → Pred
deriving DecidableEq

/-- Each predicate's `operator()` on a symbol. -/
def Pred.eval : Pred → Int → Bool
| .is_any, c => c != EOF
| .is_space, c => isspace c
| .is_digit, c => isdigit c
| .is_upper, c => isupper c
| .is_lower, c => islower c
| .is_alpha, c => isalpha c
| .is_alnum, c => isalnum c
| .is_print, c => isprint c
| .is_char k, c => k == c
| .is_either p q, c => p.eval c || q.eval c
| .is_not p, c => !(p.eval c)

/-- The C++ `string(1, c)` for a symbol, used by the `is_char` name. -/
def charOfSym (k : Int) : String := String.singleton (Char.ofNat k.toNat)

/-- The single-quote character, written by code point to keep the
name construction readable. -/
def quoteStr : String := String.singleton (Char.ofNat 39)

/-- Each predicate's stored `name` string. -/
def Pred.name : Pred → String
| .is_any => "anything"
| .is_space => "space"
| .is_digit => "digit"
| .is_upper => "uppercase"
| .is_lower => "lowercase"
| .is_alpha => "alphabetic"
| .is_alnum => "alphanumeric"
| .is_print => "printable"
| .is_char k => quoteStr ++ charOfSym k ++ quoteStr
| .is_either p q => "(" ++ p.name ++ " or " ++ q.name ++ ")"
| .is_not p => "~" ++ p.name

/-- The declaration `is_char const is_eof(EOF);` — the explicit end-of-input predicate. -/
def is_eof : Pred := .is_char EOF

/-- Structure `parse_error`: the exception thrown by `pstream::error`, carrying the
`runtime_error` message, the row, column, offending symbol and the
expectation string. -/
structure parse_error : Type where
  what : String
  row : Nat
  col : Nat
  sym : Int
  exp : String
deriving DecidableEq

/-- The `pstream` cursor: the not-yet-buffered tail of the input stream,
the byte count, 1-based row and column, and the buffered symbol. -/
structure pstream : Type where
  rest : List Int
  count : Nat
  row : Nat
  col : Nat
  sym : Int
deriving DecidableEq

/-- The `pstream(istream&)` constructor applied to an input whose
character sequence is `l`: `sbumpc` buffers the first character (or
`EOF`), `count = 0`, `row = col = 1`. -/
def pstream.mk0 (l : List Int) : pstream :=
  { rest := l.tail, count := 0, row := 1, col := 1, sym := l.headD EOF }

/-- Method `pstream::next`: buffer the next character (`sgetc` then `snextc`),
increment the byte count, and update row/column driven by the newly
buffered symbol: on a newline the row increments and the column resets
to 0; on a printable symbol the column increments. -/
def pstream.next (s : pstream) : pstream :=
  let sym := s.rest.headD EOF
  { rest := s.rest.tail
    count := s.count + 1
    row := if sym = 10 then s.row + 1 else s.row
    col := if sym = 10 then 0 else if isprint sym then s.col + 1 else s.col
    sym := sym }

/-- Method `pstream::error`: the `parse_error` thrown at the current position. -/
def pstream.error (s : pstream) (err exp : String) : parse_error :=
  ⟨err, s.row, s.col, s.sym, exp⟩

/-- Iterated `pstream::next`. -/
def pstream.nextN (s : pstream) : Nat → pstream
| 0 => s
| n + 1 => (s.next).nextN n

/-- The number of real (non-`EOF`) symbols the cursor has not yet moved
past: the unread tail plus the buffered symbol when it is not `EOF`. -/
def pstream.remaining (s : pstream) : Nat :=
  s.rest.length + (if s.sym = EOF then 0 else 1)

/-- A parser with result-slot type `σ`: from the cursor and the caller's
slot it either throws a `parse_error` or returns the C++ `bool` together
with the cursor and slot as the call left them. -/
def Parser (σ : Type) : Type :=
  pstream → σ → Except parse_error (Bool × pstream × σ)

/-- Recogniser `accept`: if the predicate rejects the buffered symbol,
return false without touching anything; otherwise append the symbol to
the slot, advance, and return true. -/
def recogniser_accept (p : Pred) : Parser (List Int) := fun inp res =>
  let sym := inp.sym
  if p.eval sym = false then .ok (false, inp, res)
  else .ok (true, inp.next, res ++ [sym])

/-- Recogniser `expect`: as `accept`, but a rejected symbol throws
`parse_error` via `pstream::error("expected", p.name)`. -/
def recogniser_expect (p : Pred) : Parser (List Int) := fun inp res =>
  let sym := inp.sym
  if p.eval sym = false then .error (inp.error "expected" p.name)
  else .ok (true, inp.next, res ++ [sym])

/-- Parser `succ`: always returns true, touches nothing. -/
def parser_succ {σ : Type} : Parser σ := fun inp res => .ok (true, inp, res)

/-- Parser `fail`: always returns false, touches nothing. -/
def parser_fail {σ : Type} : Parser σ := fun inp res => .ok (false, inp, res)

/-- Combinator `p1 || p2` (`combinator_choice`): C++ short-circuit disjunction of
the two calls on the same cursor and slot — `p2` runs from whatever
state `p1`'s run left behind whenever `p1` returned false. -/
def combinator_choice {σ : Type} (p1 p2 : Parser σ) : Parser σ := fun inp res =>
  match p1 inp res with
  | .error e => .error e
  | .ok (true, i, r) => .ok (true, i, r)
  | .ok (false, i, r) => p2 i r

/-- Combinator `p1 && p2` (`combinator_sequence`): C++ short-circuit conjunction of
the two calls on the same cursor and slot. -/
def combinator_sequence {σ : Type} (p1 p2 : Parser σ) : Parser σ := fun inp res =>
  match p1 inp res with
  | .error e => .error e
  | .ok (false, i, r) => .ok (false, i, r)
  | .ok (true, i, r) => p2 i r

/-- Combinator `many` (`while (p(in, result)); return true;`), embedded
with explicit fuel: `none` means the loop has not finished within the
given number of iterations. -/
def combinator_many {σ : Type} (p : Parser σ) :
    Nat → pstream → σ → Option (Except parse_error (Bool × pstream × σ))
| 0, _, _ => none
| fuel + 1, inp, res =>
    match p inp res with
    | .error e => some (.error e)
    | .ok (true, i, r) => combinator_many p fuel i r
    | .ok (false, i, r) => some (.ok (true, i, r))

/-- Helper `fmap_sequence::all_parsers`: run the parsers in order, handing each
the corresponding component of the temporary tuple; stop at the first
false, prepending each run's (possibly mutated) temporary to the
returned tuple.  A length mismatch between parsers and temporaries
never occurs in use; that branch returns false vacuously. -/
def all_parsers {σ : Type} :
    List (Parser σ) → List σ → pstream → Except parse_error (Bool × pstream × List σ)
| [], _, inp => .ok (true, inp, [])
| _ :: _, [], inp => .ok (false, inp, [])
| p :: ps, t :: ts, inp =>
    match p inp t with
    | .error e => .error e
    | .ok (false, i, r) => .ok (false, i, r :: ts)
    | .ok (true, i, r) =>
        match all_parsers ps ts i with
        | .error e => .error e
        | .ok (b, i2, rs) => .ok (b, i2, r :: rs)

/-- Combinator `all(f, ps...)` (`fmap_sequence`): default-construct the tuple of
temporaries, run `all_parsers`; on overall success call the reducer once
on the caller's slot and the temporaries, otherwise return false with
the slot untouched. -/
def fmap_sequence {σ : Type} (f : σ → List σ → σ) (ps : List (Parser σ)) (dflt : σ) :
    Parser σ := fun inp res =>
  match all_parsers ps (List.replicate ps.length dflt) inp with
  | .error e => .error e
  | .ok (true, i, tmp) => .ok (true, i, f res tmp)
  | .ok (false, i, _) => .ok (false, i, res)

/-- Helper `fmap_choice::any_parsers`: run the parsers in order, handing each
the corresponding component of the temporary tuple; return the index of
the first one that returns true (`none` plays the role of the C++ `-1`),
prepending each run's (possibly mutated) temporary to the returned
tuple. -/
def any_parsers {σ : Type} :
    List (Parser σ) → List σ → pstream → Except parse_error (Option Nat × pstream × List σ)
| [], _, inp => .ok (none, inp, [])
| _ :: _, [], inp => .ok (none, inp, [])
| p :: ps, t :: ts, inp =>
    match p inp t with
    | .error e => .error e
    | .ok (true, i, r) => .ok (some 0, i, r :: ts)
    | .ok (false, i, r) =>
        match any_parsers ps ts i with
        | .error e => .error e
        | .ok (k, i2, rs) => .ok (k.map Nat.succ, i2, r :: rs)

/-- Combinator `any(f, ps...)` (`fmap_choice`): default-construct the tuple of
temporaries, run `any_parsers`; if some parser succeeded call the
reducer once on the caller's slot, the index and the temporaries,
otherwise return false with the slot untouched. -/
def fmap_choice {σ : Type} (f : σ → Nat → List σ → σ) (ps : List (Parser σ)) (dflt : σ) :
    Parser σ := fun inp res =>
  match any_parsers ps (List.replicate ps.length dflt) inp with
  | .error e => .error e
  | .ok (some k, i, tmp) => .ok (true, i, f res k tmp)
  | .ok (none, i, _) => .ok (false, i, res)

/-- A run of a list of parsers in which every parser, handed a
default-constructed slot, succeeds: `SeqRun dflt ps inp out rs` says the
parsers of `ps`, run left to right from cursor `inp`, each return true
and produce the slots `rs`, leaving the cursor at `out`. -/
inductive SeqRun {σ : Type} (dflt : σ) :
    List (Parser σ) → pstream → pstream → List σ → Prop where
| nil (inp : pstream) : SeqRun dflt [] inp inp []
| cons {p : Parser σ} {ps : List (Parser σ)} {inp inp2 out : pstream} {r : σ} {rs : List σ} :
    p inp dflt = .ok (true, inp2, r) →
    SeqRun dflt ps inp2 out rs →
    SeqRun dflt (p :: ps) inp out (r :: rs)

/-- A run of a list of parsers in which every parser, handed a
default-constructed slot, returns false: `FailRun dflt ps inp out rs`
says the parsers of `ps`, run left to right from cursor `inp`, each
return false leaving the slots `rs` (whatever each failed run wrote)
and the cursor at `out`. -/
inductive FailRun {σ : Type} (dflt : σ) :
    List (Parser σ) → pstream → pstream → List σ → Prop where
| nil (inp : pstream) : FailRun dflt [] inp inp []
| cons {p : Parser σ} {ps : List (Parser σ)} {inp inp2 out : pstream} {r : σ} {rs : List σ} :
    p inp dflt = .ok (false, inp2, r) →
    FailRun dflt ps inp2 out rs →
    FailRun dflt (p :: ps) inp out (r :: rs)

/-- The row/column update of `pstream::next` driven by one newly
buffered symbol, as a fold step. -/
def rcStep (rc : Nat × Nat) (s : Int) : Nat × Nat :=
  if s = 10 then (rc.1 + 1, 0)
  else if isprint s then (rc.1, rc.2 + 1)
  else rc

/-- The negation-free fragment of the predicate algebra that avoids the
end-of-input predicate: class predicates, `is_char c` for `c ≠ EOF`,
and disjunctions of such. -/
def Pred.eofBlind : Pred → Bool
| .is_char k => k != EOF
| .is_either p q => p.eofBlind && q.eofBlind
| .is_not _ => false
| _ => true

/-! ## Helper lemmas -/

/-- A successful `accept` run means the predicate held and the cursor
took exactly one `next` step. -/
theorem accept_true_elim {p : Pred} {inp i : pstream} {res r : List Int}
    (h : recogniser_accept p inp res = .ok (true, i, r)) :
    p.eval inp.sym = true ∧ i = inp.next ∧ r = res ++ [inp.sym] := by
  cases hb : p.eval inp.sym with
  | false => simp [recogniser_accept, hb] at h
  | true =>
      simp [recogniser_accept, hb] at h
      exact ⟨rfl, h.1.symm, h.2.symm⟩

/-- Advancing past a real (non-`EOF`) buffered symbol strictly decreases
the number of unread symbols. -/
theorem next_remaining_lt {s : pstream} (h : s.sym ≠ EOF) :
    s.next.remaining < s.remaining := by
  have h' : ¬ (s.sym = -1) := by simpa [EOF] using h
  cases hr : s.rest with
  | nil => simp [pstream.next, pstream.remaining, hr, h', EOF]
  | cons a t =>
      simp [pstream.next, pstream.remaining, hr, h']
      split_ifs <;> omega

/-- If a predicate never holds at `EOF`, then `accept` of it consumes at
least one unread symbol on every success. -/
theorem accept_pred_consumes (p : Pred) (hp : ∀ c, p.eval c = true → c ≠ EOF) :
    ∀ (inp : pstream) (res : List Int) (i : pstream) (r : List Int),
      recogniser_accept p inp res = .ok (true, i, r) → i.remaining < inp.remaining := by
  intro inp res i r h
  obtain ⟨hev, hi, -⟩ := accept_true_elim h
  rw [hi]
  exact next_remaining_lt (hp _ hev)

/-- The digit predicate never holds at `EOF`. -/
theorem isdigit_ne_eof : ∀ c : Int, Pred.is_digit.eval c = true → c ≠ EOF := by
  intro c h
  simp only [Pred.eval, isdigit, Bool.and_eq_true, decide_eq_true_eq] at h
  simp only [EOF]
  omega

/-- One advance from an exhausted cursor only increments the byte
count. -/
theorem eof_next {s : pstream} (h2 : s.rest = []) :
    s.next = ⟨[], s.count + 1, s.row, s.col, EOF⟩ := by
  simp [pstream.next, h2, EOF, isprint]

/-- Iterated advance from an exhausted cursor only adds to the byte
count. -/
theorem eof_nextN (s : pstream) (h1 : s.sym = EOF) (h2 : s.rest = []) :
    ∀ n : Nat, s.nextN n = ⟨[], s.count + n, s.row, s.col, EOF⟩ := by
  intro n
  induction n generalizing s with
  | zero =>
      obtain ⟨rest, cnt, r, c, y⟩ := s
      simp only [pstream.nextN]
      simp_all
  | succ n ih =>
      show (s.next).nextN n = _
      rw [eof_next h2, ih ⟨[], s.count + 1, s.row, s.col, EOF⟩ rfl rfl]
      simp [Nat.add_assoc, Nat.add_comm 1 n]

/-- Draining the unbuffered tail `m` plus one more step: the row/column
pair is the fold of the `pstream::next` update over `m`, the byte count
grows by `m.length + 1`, and the buffered symbol ends at `EOF`. -/
theorem nextN_drain :
    ∀ (m : List Int) (cnt r c : Nat) (y : Int),
      pstream.nextN ⟨m, cnt, r, c, y⟩ (m.length + 1) =
        ⟨[], cnt + (m.length + 1), (m.foldl rcStep (r, c)).1, (m.foldl rcStep (r, c)).2, EOF⟩ := by
  intro m
  induction m with
  | nil =>
      intro cnt r c y
      show pstream.nextN (pstream.next _) 0 = _
      simp [pstream.nextN, pstream.next, EOF, isprint]
  | cons a t ih =>
      intro cnt r c y
      have h1 : pstream.next ⟨a :: t, cnt, r, c, y⟩ =
          ⟨t, cnt + 1, (rcStep (r, c) a).1, (rcStep (r, c) a).2, a⟩ := by
        simp only [pstream.next, rcStep]
        by_cases h10 : a = 10 <;> by_cases hpr : isprint a <;> simp [h10, hpr]
      show pstream.nextN (pstream.next ⟨a :: t, cnt, r, c, y⟩) (t.length + 1) = _
      rw [h1, ih]
      simp only [List.foldl_cons, List.length_cons]
      congr 1
      omega

/-- The row component of the fold counts newlines. -/
theorem rc_fold_row : ∀ (m : List Int) (r c : Nat),
    (m.foldl rcStep (r, c)).1 = r + m.count 10 := by
  intro m
  induction m with
  | nil => intro r c; simp
  | cons a t ih =>
      intro r c
      simp only [List.foldl_cons, List.count_cons]
      by_cases h10 : a = 10
      · simp [rcStep, h10, ih]
        omega
      · by_cases hpr : isprint a <;> simp [rcStep, h10, hpr, ih]

/-! ## Claim C9 -/

/-- Claim C9: for every predicate `p`, running `accept(p)` on a cursor
whose buffered symbol does not satisfy `p` returns false and leaves the
cursor (its row, column, byte count and buffered symbol) and the result
slot unchanged. -/
theorem accept_soft_fail (p : Pred) (s : pstream) (res : List Int)
    (h : p.eval s.sym = false) :
    recogniser_accept p s res = .ok (false, s, res) := by
  simp [recogniser_accept, h]

/-- Witness for C9: `accept(digit)` on input starting with `'x'` (120)
fails and leaves the cursor untouched. -/
theorem accept_soft_fail_witness :
    recogniser_accept .is_digit (pstream.mk0 [120]) [] =
      .ok (false, pstream.mk0 [120], []) :=
  accept_soft_fail .is_digit (pstream.mk0 [120]) [] (by decide)

/-! ## Claim C5 -/

/-- Claim C5: `expect(pred)` on a mismatching buffered symbol throws a
parse error carrying the current row, the current column, the offending
symbol and the expectation string `pred.name`; on a matching symbol it
appends the symbol to the slot, advances, and returns true, exactly as
`accept(pred)` does. -/
theorem expect_spec (p : Pred) (s : pstream) (res : List Int) :
    (p.eval s.sym = false →
       recogniser_expect p s res = .error ⟨"expected", s.row, s.col, s.sym, p.name⟩) ∧
    (p.eval s.sym = true →
       recogniser_expect p s res = .ok (true, s.next, res ++ [s.sym]) ∧
       recogniser_expect p s res = recogniser_accept p s res) := by
  constructor
  · intro h
    simp [recogniser_expect, pstream.error, h]
  · intro h
    constructor <;> simp [recogniser_expect, recogniser_accept, h]

/-- Witness for C5: `expect(digit)` on `"x"` throws the parse error
`("expected", row 1, col 1, symbol 120, expectation "digit")`, and
`expect(digit)` on `"5"` behaves exactly as `accept(digit)`. -/
theorem expect_spec_witness :
    (recogniser_expect .is_digit (pstream.mk0 [120]) [] =
       .error ⟨"expected", 1, 1, 120, "digit"⟩) ∧
    recogniser_expect .is_digit (pstream.mk0 [53]) [] =
      recogniser_accept .is_digit (pstream.mk0 [53]) [] := by
  constructor
  · exact (expect_spec .is_digit (pstream.mk0 [120]) []).1 (by decide)
  · exact ((expect_spec .is_digit (pstream.mk0 [53]) []).2 (by decide)).2

/-! ## Claim C2 -/

/-- Counterexample to Claim C2: the claim says that whenever an
invocation returns false the caller's slot holds exactly its previous
contents, including the committed-failure case of `p && q`.  But
`accept(is_char a) && accept(is_char b)` on `"ax"` with an initially
empty slot returns false with the slot holding `"a"` (the write of the
succeeded first half is kept). -/
theorem slot_commit_cex :
    combinator_sequence (recogniser_accept (.is_char 97)) (recogniser_accept (.is_char 98))
      (pstream.mk0 [97, 120]) [] = .ok (false, ⟨[], 1, 1, 2, 120⟩, [97]) ∧
    ([97] : List Int) ≠ [] :=
  ⟨rfl, by decide⟩

/-- Claim C2 (amended): the primitive recognisers write into the slot
only on success — `accept` returning false leaves the slot and the
cursor exactly as they were, and `expect` never returns false (its only
normal return appends the matched symbol) — but a composite sequence
that fails after its first half succeeded keeps the successful prefix's
writes in the slot. -/
theorem primitive_slot_spec (p : Pred) (s : pstream) (res : List Int) :
    (∀ (i : pstream) (r : List Int),
       recogniser_accept p s res = .ok (false, i, r) → r = res ∧ i = s) ∧
    (∀ (b : Bool) (i : pstream) (r : List Int),
       recogniser_expect p s res = .ok (b, i, r) → b = true ∧ r = res ++ [s.sym]) := by
  constructor
  · intro i r h
    cases hb : p.eval s.sym with
    | false =>
        simp [recogniser_accept, hb] at h
        exact ⟨h.2.symm, h.1.symm⟩
    | true => simp [recogniser_accept, hb] at h
  · intro b i r h
    cases hb : p.eval s.sym with
    | false => simp [recogniser_expect, hb] at h
    | true =>
        simp [recogniser_expect, hb] at h
        exact ⟨h.1, h.2.2.symm⟩

/-- Witness for the amended C2: `accept(digit)` failing on `"x"` keeps
slot and cursor; `expect(digit)` succeeding on `"5"` returns true with
the symbol appended. -/
theorem primitive_slot_spec_witness :
    (([] : List Int) = [] ∧ pstream.mk0 [120] = pstream.mk0 [120]) ∧
    (true = true ∧ ([53] : List Int) = [] ++ [53]) := by
  constructor
  · exact (primitive_slot_spec .is_digit (pstream.mk0 [120]) []).1 (pstream.mk0 [120]) [] rfl
  · exact (primitive_slot_spec .is_digit (pstream.mk0 [53]) []).2 true ⟨[], 1, 1, 1, -1⟩ [53] rfl

/-! ## Claim C1 -/

/-- Counterexample to Claim C1: the claim says that if `p` consumed a
symbol before failing, `p || q` returns false without running `q`.  But
with `p = accept(is_char a) && accept(is_char b)` and
`q = accept(is_char x)` on input `"ax"`, `p` consumes `'a'` and fails,
and the choice still runs `q` at the advanced position: the whole
choice returns true, consuming both symbols. -/
theorem choice_commit_cex :
    combinator_choice
      (combinator_sequence (recogniser_accept (.is_char 97)) (recogniser_accept (.is_char 98)))
      (recogniser_accept (.is_char 120))
      (pstream.mk0 [97, 120]) [] = .ok (true, ⟨[], 2, 1, 2, -1⟩, [97, 120]) :=
  rfl

/-- Claim C1 (amended): `p || q` runs `p` and returns `p`'s outcome when
it returns true; whenever `p` returns false — whether or not `p`'s run
consumed input — the choice runs `q` from the cursor and slot state
`p`'s run left behind and returns `q`'s outcome.  No consumption check
is performed; a thrown parse error propagates. -/
theorem choice_spec {σ : Type} (p q : Parser σ) (inp : pstream) (res : σ) :
    (∀ (i : pstream) (r : σ),
       p inp res = .ok (true, i, r) → combinator_choice p q inp res = .ok (true, i, r)) ∧
    (∀ (i : pstream) (r : σ),
       p inp res = .ok (false, i, r) → combinator_choice p q inp res = q i r) ∧
    (∀ e : parse_error,
       p inp res = .error e → combinator_choice p q inp res = .error e) := by
  refine ⟨?_, ?_, ?_⟩
  · intro i r h
    simp [combinator_choice, h]
  · intro i r h
    simp [combinator_choice, h]
  · intro e h
    simp [combinator_choice, h]

/-- Witness for the amended C1: after the committed failure of
`accept(is_char a) && accept(is_char b)` on `"ax"`, the choice
continues as `q` run from the advanced cursor with the partially
written slot. -/
theorem choice_spec_witness :
    combinator_choice
      (combinator_sequence (recogniser_accept (.is_char 97)) (recogniser_accept (.is_char 98)))
      (recogniser_accept (.is_char 120))
      (pstream.mk0 [97, 120]) [] =
      recogniser_accept (.is_char 120) ⟨[], 1, 1, 2, 120⟩ [97] :=
  (choice_spec
      (combinator_sequence (recogniser_accept (.is_char 97)) (recogniser_accept (.is_char 98)))
      (recogniser_accept (.is_char 120))
      (pstream.mk0 [97, 120]) []).2.1 ⟨[], 1, 1, 2, 120⟩ [97] rfl

/-! ## Claim C4 -/

/-- Counterexample to Claim C4: the claim says every predicate of the
algebra other than the end-of-input predicate returns false at the
end-of-input symbol.  But the negated predicate `~digit` (`is_not` of
`is_digit`), which is not the end-of-input predicate, returns true at
`EOF`. -/
theorem eof_pred_cex :
    (Pred.is_not .is_digit).eval EOF = true ∧ Pred.is_not .is_digit ≠ is_eof := by
  decide

/-- Claim C4 (amended): every predicate built without negation and
without the end-of-input predicate `is_char EOF` — class predicates,
other `is_char` literals, and disjunctions of such — returns false when
applied to the end-of-input symbol; negated predicates (and disjunctions
embedding the end-of-input predicate) can return true there. -/
theorem eof_blind_eval (p : Pred) (h : p.eofBlind = true) : p.eval EOF = false := by
  induction p with
  | is_any => decide
  | is_space => decide
  | is_digit => decide
  | is_upper => decide
  | is_lower => decide
  | is_alpha => decide
  | is_alnum => decide
  | is_print => decide
  | is_char k =>
      simp only [Pred.eofBlind, bne_iff_ne, ne_eq] at h
      simp [Pred.eval, h]
  | is_either p q ihp ihq =>
      simp only [Pred.eofBlind, Bool.and_eq_true] at h
      simp [Pred.eval, ihp h.1, ihq h.2]
  | is_not p ih => simp [Pred.eofBlind] at h

/-- Witness for the amended C4: the disjunction `digit or is_char a` is
in the negation-free, `EOF`-free fragment and returns false at `EOF`. -/
theorem eof_blind_eval_witness :
    (Pred.is_either .is_digit (.is_char 97)).eofBlind = true ∧
    (Pred.is_either .is_digit (.is_char 97)).eval EOF = false :=
  ⟨by decide, eof_blind_eval (Pred.is_either .is_digit (.is_char 97)) (by decide)⟩

/-! ## Claim C10 -/

/-- Claim C10: once the buffered symbol is end-of-input (and the stream
is exhausted), every further advance keeps the buffered symbol at `EOF`
and leaves row and column unchanged while still incrementing the byte
count; `accept(is_eof)` succeeds and advances at end-of-input, so the
successful-parse-consumes-a-symbol discipline fails for it (the number
of unread symbols does not decrease). -/
theorem eof_advance_spec (s : pstream) (res : List Int)
    (h1 : s.sym = EOF) (h2 : s.rest = []) :
    (∀ n : Nat, s.nextN n = ⟨[], s.count + n, s.row, s.col, EOF⟩) ∧
    recogniser_accept is_eof s res = .ok (true, s.next, res ++ [EOF]) ∧
    ¬ (s.next.remaining < s.remaining) := by
  refine ⟨eof_nextN s h1 h2, ?_, ?_⟩
  · simp [recogniser_accept, is_eof, Pred.eval, h1]
  · rw [eof_next h2]
    simp [pstream.remaining, h1, h2, EOF]

/-- Witness for C10: on the empty input the cursor starts at `EOF`;
three advances leave row/col at 1 with byte count 3, and
`accept(is_eof)` succeeds there. -/
theorem eof_advance_spec_witness :
    (pstream.mk0 []).nextN 3 = ⟨[], 3, 1, 1, EOF⟩ ∧
    recogniser_accept is_eof (pstream.mk0 []) [] =
      .ok (true, (pstream.mk0 []).next, [EOF]) ∧
    ¬ ((pstream.mk0 []).next.remaining < (pstream.mk0 []).remaining) := by
  have h := eof_advance_spec (pstream.mk0 []) [] rfl rfl
  exact ⟨h.1 3, h.2.1, h.2.2⟩

/-! ## Claim C3 -/

/-- Counterexample to Claim C3: the claim says that after a full parse
the reported row equals 1 plus the number of newline symbols consumed.
On the one-symbol input `"\n"`, fully consumed, the code reports row 1
(the row/column update is driven by the newly buffered symbol, and the
initially buffered newline never becomes newly buffered), while the
claim demands `1 + 1 = 2`. -/
theorem rowcol_cex :
    ((pstream.mk0 [10]).nextN 1).row ≠ 1 + ([10] : List Int).count 10 := by
  decide

/-- Claim C3 (amended): `pstream::next` updates row and column from the
newly buffered symbol, so after a full parse of input `l` the byte count
equals the number of consumed symbols, and row/column equal the fold of
the newline/printable update rule over the consumed symbols *excluding
the initially buffered first symbol* — in particular the row equals 1
plus the number of newlines among `l.tail` (not among all of `l`), and
no final `+ 1` is applied to the column. -/
theorem full_parse_position (l : List Int) :
    (pstream.mk0 l).nextN l.length =
      ⟨[], l.length, (l.tail.foldl rcStep (1, 1)).1, (l.tail.foldl rcStep (1, 1)).2, EOF⟩ ∧
    (l.tail.foldl rcStep (1, 1)).1 = 1 + l.tail.count 10 := by
  refine ⟨?_, rc_fold_row l.tail 1 1⟩
  cases l with
  | nil => simp [pstream.mk0, pstream.nextN, EOF]
  | cons a t =>
      show pstream.nextN ⟨t, 0, 1, 1, a⟩ (t.length + 1) = _
      rw [nextN_drain]
      simp

/-! ## Claim C6 -/

/-- A `SeqRun` of every parser succeeding on its fresh default slot
makes `all_parsers` succeed with exactly those sub-results. -/
theorem all_parsers_seqRun {σ : Type} {dflt : σ} :
    ∀ {ps : List (Parser σ)} {inp out : pstream} {rs : List σ},
      SeqRun dflt ps inp out rs →
      all_parsers ps (List.replicate ps.length dflt) inp = .ok (true, out, rs) := by
  intro ps inp out rs h
  induction h with
  | nil inp => rfl
  | cons hp htail ih =>
      simp only [List.length_cons, List.replicate_succ, all_parsers, hp, ih]

/-- After a successful prefix, a parser returning false makes
`all_parsers` return false from the failing run's cursor, with the
later temporaries never touched. -/
theorem all_parsers_seqRun_fail {σ : Type} {dflt : σ} {q : Parser σ} :
    ∀ {ps1 : List (Parser σ)} {inp mid : pstream} {rs1 : List σ},
      SeqRun dflt ps1 inp mid rs1 →
      ∀ {ps2 : List (Parser σ)} {i : pstream} {r : σ},
        q mid dflt = .ok (false, i, r) →
        all_parsers (ps1 ++ q :: ps2) (List.replicate (ps1 ++ q :: ps2).length dflt) inp =
          .ok (false, i, rs1 ++ r :: List.replicate ps2.length dflt) := by
  intro ps1 inp mid rs1 h
  induction h with
  | nil inp =>
      intro ps2 i r hq
      simp only [List.nil_append, List.length_cons, List.replicate_succ, all_parsers, hq]
  | cons hp htail ih =>
      intro ps2 i r hq
      simp only [List.cons_append, List.length_cons, List.replicate_succ, all_parsers,
        List.append_eq, hp, ih hq]

/-- Claim C6: `all(f, p₁…pₙ)` runs each `pᵢ` in order against the
cursor, each with a fresh default-constructed temporary slot; if every
`pᵢ` succeeds it invokes the reducer exactly once, on the caller's slot
and all the sub-results, and returns true; on the first `pᵢ` that
returns false it stops, returns false with the caller's slot untouched,
and the reducer is never invoked. -/
theorem fmap_sequence_spec {σ : Type} (f : σ → List σ → σ) (dflt res : σ) :
    (∀ (ps : List (Parser σ)) (inp out : pstream) (rs : List σ),
       SeqRun dflt ps inp out rs →
       fmap_sequence f ps dflt inp res = .ok (true, out, f res rs)) ∧
    (∀ (ps1 : List (Parser σ)) (q : Parser σ) (ps2 : List (Parser σ))
       (inp mid i : pstream) (rs1 : List σ) (r : σ),
       SeqRun dflt ps1 inp mid rs1 →
       q mid dflt = .ok (false, i, r) →
       fmap_sequence f (ps1 ++ q :: ps2) dflt inp res = .ok (false, i, res)) := by
  constructor
  · intro ps inp out rs h
    simp only [fmap_sequence, all_parsers_seqRun h]
  · intro ps1 q ps2 inp mid i rs1 r h hq
    simp only [fmap_sequence, all_parsers_seqRun_fail h hq]

/-- Witness for C6: `all(f, accept(digit), accept(lowercase))` on
`"1a"` reduces the two sub-results once into `"1a"`; on `"12"` the
second parser fails and the combinator returns false with the slot
untouched. -/
theorem fmap_sequence_spec_witness :
    fmap_sequence (fun r ts => ts.foldl List.append r)
      [recogniser_accept .is_digit, recogniser_accept .is_lower] []
      (pstream.mk0 [49, 97]) [] = .ok (true, ⟨[], 2, 1, 2, -1⟩, [49, 97]) ∧
    fmap_sequence (fun r ts => ts.foldl List.append r)
      [recogniser_accept .is_digit, recogniser_accept .is_lower] []
      (pstream.mk0 [49, 50]) [] = .ok (false, ⟨[], 1, 1, 2, 50⟩, []) := by
  constructor
  · have h1 : recogniser_accept .is_digit (pstream.mk0 [49, 97]) [] =
        .ok (true, ⟨[], 1, 1, 2, 97⟩, [49]) := rfl
    have h2 : recogniser_accept .is_lower ⟨[], 1, 1, 2, 97⟩ [] =
        .ok (true, ⟨[], 2, 1, 2, -1⟩, [97]) := rfl
    exact (fmap_sequence_spec (fun r ts => ts.foldl List.append r) [] []).1
      [recogniser_accept .is_digit, recogniser_accept .is_lower]
      (pstream.mk0 [49, 97]) ⟨[], 2, 1, 2, -1⟩ [[49], [97]]
      (SeqRun.cons h1 (SeqRun.cons h2 (SeqRun.nil _)))
  · have h1 : recogniser_accept .is_digit (pstream.mk0 [49, 50]) [] =
        .ok (true, ⟨[], 1, 1, 2, 50⟩, [49]) := rfl
    have h2 : recogniser_accept .is_lower ⟨[], 1, 1, 2, 50⟩ [] =
        .ok (false, ⟨[], 1, 1, 2, 50⟩, []) := rfl
    exact (fmap_sequence_spec (fun r ts => ts.foldl List.append r) [] []).2
      [recogniser_accept .is_digit] (recogniser_accept .is_lower) []
      (pstream.mk0 [49, 50]) ⟨[], 1, 1, 2, 50⟩ ⟨[], 1, 1, 2, 50⟩ [[49]] []
      (SeqRun.cons h1 (SeqRun.nil _)) h2

/-! ## Claim C7 -/

/-- Counterexample to Claim C7: the claim says the reducer of
`any(f, p₁…pₙ)` receives temporaries of which only the one of the
succeeding parser is populated.  With
`p₀ = accept(is_char a) && accept(is_char b)` and
`p₁ = accept(is_char x)` on `"ax"`, `p₀` writes `'a'` into its
temporary before failing, `p₁` succeeds at index 1, and the reducer
observes the populated `tmp₀ = "a" ≠ ""` (here the reducer returns
`tmp₀` so the final result exposes it). -/
theorem fmap_choice_cex :
    fmap_choice (fun _ _ tmps => tmps.getD 0 [])
      [combinator_sequence (recogniser_accept (.is_char 97)) (recogniser_accept (.is_char 98)),
        recogniser_accept (.is_char 120)] []
      (pstream.mk0 [97, 120]) [] = .ok (true, ⟨[], 2, 1, 2, -1⟩, [97]) ∧
    ([97] : List Int) ≠ [] :=
  ⟨rfl, by decide⟩

/-- A `FailRun` of every parser returning false on its fresh default
slot makes `any_parsers` return the no-match index with exactly the
temporaries the failed runs left. -/
theorem any_parsers_failRun {σ : Type} {dflt : σ} :
    ∀ {ps : List (Parser σ)} {inp out : pstream} {rs : List σ},
      FailRun dflt ps inp out rs →
      any_parsers ps (List.replicate ps.length dflt) inp = .ok (none, out, rs) := by
  intro ps inp out rs h
  induction h with
  | nil inp => rfl
  | cons hp htail ih =>
      simp only [List.length_cons, List.replicate_succ, any_parsers, hp, ih, Option.map_none']

/-- After a failing prefix, the first succeeding parser makes
`any_parsers` return its zero-based index, its cursor, and the
temporaries: those of the failed runs, its own result, then untouched
defaults. -/
theorem any_parsers_failRun_succ {σ : Type} {dflt : σ} {q : Parser σ} :
    ∀ {ps1 : List (Parser σ)} {inp mid : pstream} {rs1 : List σ},
      FailRun dflt ps1 inp mid rs1 →
      ∀ {ps2 : List (Parser σ)} {i : pstream} {r : σ},
        q mid dflt = .ok (true, i, r) →
        any_parsers (ps1 ++ q :: ps2) (List.replicate (ps1 ++ q :: ps2).length dflt) inp =
          .ok (some ps1.length, i, rs1 ++ r :: List.replicate ps2.length dflt) := by
  intro ps1 inp mid rs1 h
  induction h with
  | nil inp =>
      intro ps2 i r hq
      simp only [List.nil_append, List.length_cons, List.replicate_succ, any_parsers, hq,
        List.length_nil]
  | cons hp htail ih =>
      intro ps2 i r hq
      simp only [List.cons_append, List.length_cons, List.replicate_succ, any_parsers,
        List.append_eq, hp, ih hq, Option.map_some']

/-- Claim C7 (amended): `any(f, p₁…pₙ)` runs the parsers in order, each
against a fresh default-constructed temporary; on the first success, at
zero-based index `k`, it invokes the reducer exactly once with the
caller's slot, `k`, and the temporaries — the succeeding parser's
temporary populated by its run, later temporaries at their defaults,
and each earlier temporary holding whatever its failed run wrote
(default unless the failed parser partially wrote) — and returns true.
If every parser returns false it returns false with the caller's slot
untouched and the reducer is never invoked. -/
theorem fmap_choice_spec {σ : Type} (f : σ → Nat → List σ → σ) (dflt res : σ) :
    (∀ (ps1 : List (Parser σ)) (q : Parser σ) (ps2 : List (Parser σ))
       (inp mid i : pstream) (rs1 : List σ) (r : σ),
       FailRun dflt ps1 inp mid rs1 →
       q mid dflt = .ok (true, i, r) →
       fmap_choice f (ps1 ++ q :: ps2) dflt inp res =
         .ok (true, i, f res ps1.length (rs1 ++ r :: List.replicate ps2.length dflt))) ∧
    (∀ (ps : List (Parser σ)) (inp out : pstream) (rs : List σ),
       FailRun dflt ps inp out rs →
       fmap_choice f ps dflt inp res = .ok (false, out, res)) := by
  constructor
  · intro ps1 q ps2 inp mid i rs1 r h hq
    simp only [fmap_choice, any_parsers_failRun_succ h hq]
  · intro ps inp out rs h
    simp only [fmap_choice, any_parsers_failRun h]

/-- Witness for the amended C7: with
`p₀ = accept(is_char a) && accept(is_char b)` and
`p₁ = accept(is_char x)` on `"ax"`, the reducer is handed index 1 and
the temporaries `["a", "x"]`, and with only `p₁` on `"a"` every parser
fails and the reducer is never invoked. -/
theorem fmap_choice_spec_witness :
    fmap_choice (fun _ k tmps => tmps.getD k [])
      [combinator_sequence (recogniser_accept (.is_char 97)) (recogniser_accept (.is_char 98)),
        recogniser_accept (.is_char 120)] []
      (pstream.mk0 [97, 120]) [] = .ok (true, ⟨[], 2, 1, 2, -1⟩, [120]) ∧
    fmap_choice (fun _ k tmps => tmps.getD k [])
      [recogniser_accept (.is_char 120)] []
      (pstream.mk0 [97]) [] = .ok (false, pstream.mk0 [97], []) := by
  constructor
  · have h1 : combinator_sequence (recogniser_accept (.is_char 97))
        (recogniser_accept (.is_char 98)) (pstream.mk0 [97, 120]) [] =
        .ok (false, ⟨[], 1, 1, 2, 120⟩, [97]) := rfl
    have h2 : recogniser_accept (.is_char 120) ⟨[], 1, 1, 2, 120⟩ [] =
        .ok (true, ⟨[], 2, 1, 2, -1⟩, [120]) := rfl
    exact (fmap_choice_spec (fun _ k tmps => tmps.getD k []) [] []).1
      [combinator_sequence (recogniser_accept (.is_char 97)) (recogniser_accept (.is_char 98))]
      (recogniser_accept (.is_char 120)) []
      (pstream.mk0 [97, 120]) ⟨[], 1, 1, 2, 120⟩ ⟨[], 2, 1, 2, -1⟩ [[97]] [120]
      (FailRun.cons h1 (FailRun.nil _)) h2
  · have h1 : recogniser_accept (Pred.is_char 120) (pstream.mk0 [97]) [] =
        .ok (false, pstream.mk0 [97], []) := rfl
    exact (fmap_choice_spec (fun _ k tmps => tmps.getD k []) [] []).2
      [recogniser_accept (.is_char 120)] (pstream.mk0 [97]) (pstream.mk0 [97]) [[]]
      (FailRun.cons h1 (FailRun.nil _))

/-! ## Claim C8 -/

/-- Fuel-indexed totality of the `many` loop: a fuel bound exceeding the
number of unread symbols suffices, and the loop's normal return value is
always true. -/
theorem many_total_aux {σ : Type} (p : Parser σ)
    (hcons : ∀ (inp : pstream) (res : σ) (i : pstream) (r : σ),
       p inp res = .ok (true, i, r) → i.remaining < inp.remaining) :
    ∀ (n : Nat) (inp : pstream) (res : σ), inp.remaining < n →
      ∃ out, combinator_many p n inp res = some out ∧
        ∀ (b : Bool) (i : pstream) (r : σ), out = .ok (b, i, r) → b = true := by
  intro n
  induction n with
  | zero => intro inp res h; omega
  | succ n ih =>
      intro inp res h
      cases hp : p inp res with
      | error e =>
          refine ⟨.error e, by simp [combinator_many, hp], ?_⟩
          intro b i r hb
          simp at hb
      | ok t =>
          obtain ⟨b2, i, r⟩ := t
          cases b2 with
          | true =>
              have hlt := hcons inp res i r hp
              obtain ⟨out, h1, h2⟩ := ih i r (by omega)
              exact ⟨out, by simp [combinator_many, hp, h1], h2⟩
          | false =>
              refine ⟨.ok (true, i, r), by simp [combinator_many, hp], ?_⟩
              intro b i2 r2 hb
              simp at hb
              exact hb.1

/-- Claim C8: for every parser `p` that on every success consumes at
least one unread symbol, `many(p)` terminates on every finite input —
fuel `remaining + 1` suffices for the embedded `while` loop — and
whenever the loop returns normally it returns true. -/
theorem combinator_many_total {σ : Type} (p : Parser σ)
    (hcons : ∀ (inp : pstream) (res : σ) (i : pstream) (r : σ),
       p inp res = .ok (true, i, r) → i.remaining < inp.remaining)
    (inp : pstream) (res : σ) :
    ∃ out, combinator_many p (inp.remaining + 1) inp res = some out ∧
      ∀ (b : Bool) (i : pstream) (r : σ), out = .ok (b, i, r) → b = true :=
  many_total_aux p hcons (inp.remaining + 1) inp res (Nat.lt_succ_self _)

/-- Witness for C8: `many(accept(digit))` on the one-symbol input `"5"`
finishes within fuel 2 and returns true. -/
theorem combinator_many_total_witness :
    ∃ out, combinator_many (recogniser_accept .is_digit) 2 (pstream.mk0 [53]) [] = some out ∧
      ∀ (b : Bool) (i : pstream) (r : List Int), out = .ok (b, i, r) → b = true :=
  combinator_many_total (recogniser_accept .is_digit)
    (accept_pred_consumes .is_digit isdigit_ne_eof) (pstream.mk0 [53]) []

end PC
